import Mathlib

/-!
Shallow embedding of the beam-search evaluation code in
`training-and-backend/test.py` of the Latex_OCR repository.  Token ids
are natural numbers, tensors of token ids are lists (a batched 2-D
tensor is a list of per-input rows), probabilities are rationals, and
the encoder/decoder networks — external collaborators of this code —
enter the embedding as explicit parameters.
-/

namespace LatexOCR

attribute [local semireducible] Rat.mul Rat.add Rat.sub Rat.inv

/-- The three token views produced by the pipeline: `full`, `removed`
(structural special tokens filtered out) and `symbols` (non-rendering
formatting tokens further filtered out). -/
structure Views (α : Type) where
  full : α
  removed : α
  symbols : α
deriving Repr, DecidableEq, Inhabited

/-- One hypothesis for a single input of the batch, as produced by
`unbatch_hypotheses`: its full token sequence, its (opaque) recurrent
hidden state, its two coverage-attention accumulators and its running
probability. -/
structure SingleHyp where
  sequence : List Nat
  hidden : Nat
  attnLow : Nat
  attnHigh : Nat
  probability : ℚ
deriving Repr, DecidableEq, Inhabited

/-- A batched hypothesis as carried by `evaluate`: every field holds one
entry per input of the batch (the tensors' batch dimension). -/
structure BatchHyp where
  sequence : List (List Nat)
  hidden : List Nat
  attnLow : List Nat
  attnHigh : List Nat
  probability : List ℚ
deriving Repr, DecidableEq, Inhabited

/-- Function `remove_special_tokens` from `test.py`.  With `strip_only = true` it
mirrors the Python slice `tokens[num_left:-num_right]` — including the
endpoint `-0 == 0`, i.e. when `num_right = 0` the slice stops at index
`0` — otherwise it filters every occurrence of a special token. -/
def remove_special_tokens (tokens : List Nat) (special_tokens : List Nat)
    (strip_only : Bool) : List Nat :=
  if strip_only then
    let num_left := (tokens.takeWhile (fun tok => decide (tok ∈ special_tokens))).length
    let num_right := (tokens.reverse.takeWhile (fun tok => decide (tok ∈ special_tokens))).length
    let stop := if num_right = 0 then 0 else tokens.length - num_right
    (tokens.take stop).drop num_left
  else
    tokens.filter (fun tok => decide (tok ∉ special_tokens))

/-- Function `unbatch_hypotheses` from `test.py`: convert batched hypotheses to
per-input lists of single hypotheses (a transpose over the batch
dimension).  The batch size is read off the first hypothesis, as in the
source; on the empty list the source returns `[]` without indexing. -/
def unbatch_hypotheses (hypotheses : List BatchHyp) : List (List SingleHyp) :=
  match hypotheses with
  | [] => []
  | h0 :: _ =>
    (List.range h0.probability.length).map (fun i =>
      hypotheses.map (fun h =>
        { sequence := h.sequence.getD i []
          hidden := h.hidden.getD i 0
          attnLow := h.attnLow.getD i 0
          attnHigh := h.attnHigh.getD i 0
          probability := h.probability.getD i 0 }))

/-- The `min_len` computed inside `batch_single_hypotheses`
(`min(len(hs) for hs in single_hypotheses)`).  On the empty list the
Python `min` raises `ValueError`; that case never arises in the calls
and is mapped to `0` here. -/
def min_len : List (List SingleHyp) → Nat
  | [] => 0
  | hs :: rest => (rest.map List.length).foldl min hs.length

/-- Function `batch_single_hypotheses` from `test.py`: re-batch the per-input
hypothesis lists by stacking, for each rank `i` below the minimum
common count, the `i`-th hypothesis of every input. -/
def batch_single_hypotheses (single_hypotheses : List (List SingleHyp)) : List BatchHyp :=
  (List.range (min_len single_hypotheses)).map (fun i =>
    { sequence := single_hypotheses.map (fun hs => (hs.getD i default).sequence)
      hidden := single_hypotheses.map (fun hs => (hs.getD i default).hidden)
      attnLow := single_hypotheses.map (fun hs => (hs.getD i default).attnLow)
      attnHigh := single_hypotheses.map (fun hs => (hs.getD i default).attnHigh)
      probability := single_hypotheses.map (fun hs => (hs.getD i default).probability) })

/-- Stable descending insertion: place `h` before the first hypothesis
whose probability does not exceed `h`'s, so that among equal
probabilities the earlier original element stays first. -/
def insert_by_probability (h : SingleHyp) : List SingleHyp → List SingleHyp
  | [] => [h]
  | h2 :: t =>
    if h2.probability ≤ h.probability then h :: h2 :: t
    else h2 :: insert_by_probability h t

/-- The `sorted(hs, key=lambda h: h.probability, reverse=True)` of
`pick_top_k_unique`: the stable descending sort by probability
(Python's `sorted` is stable), realised as a stable insertion sort. -/
def sort_by_probability (hs : List SingleHyp) : List SingleHyp :=
  hs.foldr insert_by_probability []

/-- One iteration of the uniqueness walk in `pick_top_k_unique`: the
hypothesis `h` is appended when fewer than `count` hypotheses were kept
so far and no kept hypothesis has an identical full sequence
(`torch.equal`); once `count` is reached the source breaks out of the
loop, which a fold renders as leaving `kept` unchanged. -/
def keep_unique (count : Nat) (kept : List SingleHyp) (h : SingleHyp) : List SingleHyp :=
  if count ≤ kept.length then kept
  else if kept.any (fun hUniq => decide (h.sequence = hUniq.sequence)) then kept
  else kept ++ [h]

/-- The uniqueness walk of `pick_top_k_unique` over one input's sorted
hypothesis list. -/
def take_top_unique (count : Nat) (hs : List SingleHyp) : List SingleHyp :=
  hs.foldl (keep_unique count) []

/-- The `unique_hypotheses` local of `pick_top_k_unique`: for each
input, the sorted candidates with the first `count` pairwise-distinct
full sequences kept. -/
def unique_hypotheses (hypotheses : List BatchHyp) (count : Nat) : List (List SingleHyp) :=
  (unbatch_hypotheses hypotheses).map (fun hs => take_top_unique count (sort_by_probability hs))

/-- Function `pick_top_k_unique` from `test.py`: unbatch, sort each input's
hypotheses by probability descending, keep the first `count` with
pairwise distinct full sequences, and re-batch the survivors. -/
def pick_top_k_unique (hypotheses : List BatchHyp) (count : Nat) : List BatchHyp :=
  batch_single_hypotheses (unique_hypotheses hypotheses count)

/-- The data produced by one decoder forward call in `evaluate`: the
top-k columns (`topk_probs.t()` zipped with `topk_ids.t()`, one column
of per-batch values for each of the `beam_width` ranks), the next
hidden state, and the decoder's coverage-attention accumulators as read
back after the call. -/
structure StepOut where
  topk : List (List ℚ × List Nat)
  next_hidden : List Nat
  attnLow : List Nat
  attnHigh : List Nat

/-- The inner loop of `evaluate`: expand one parent hypothesis into one
child per top-k column, extending each batch row's sequence by the
chosen token id (`torch.cat`) and multiplying the running probability
by the candidate's conditional probability. -/
def expand_hypothesis (hypothesis : BatchHyp) (out : StepOut) : List BatchHyp :=
  out.topk.map (fun col =>
    { sequence := hypothesis.sequence.zipWith (fun row tokId => row ++ [tokId]) col.2
      hidden := out.next_hidden
      attnLow := out.attnLow
      attnHigh := out.attnHigh
      probability := hypothesis.probability.zipWith (fun p q => p * q) col.1 })

/-- The `for hypothesis in hypotheses` loop of `evaluate`, which appends
every parent's children to `step_hypotheses`. -/
def expand_all (forward : BatchHyp → StepOut) (hypotheses : List BatchHyp) : List BatchHyp :=
  hypotheses.foldl (fun acc h => acc ++ expand_hypothesis h (forward h)) []

/-- The initial beam of `evaluate`: one hypothesis whose sequence is
`[START]` for every input, carrying the decoder's initial hidden state
and zeroed coverage attention.  The scalar probability `1.0` of the
source, which is broadcast on first use, is modelled as one entry per
input. -/
def init_hypothesis (curr_batch_size startTok : Nat)
    (hidden attnLow attnHigh : List Nat) : BatchHyp :=
  { sequence := List.replicate curr_batch_size [startTok]
    hidden := hidden
    attnLow := attnLow
    attnHigh := attnHigh
    probability := List.replicate curr_batch_size 1 }

/-- The view computation at the end of `evaluate`: `removed` filters the
structural special tokens from each row of `full`, and `symbols`
further filters the non-rendering formatting tokens from each row of
`removed`. -/
def hypothesis_views (h : BatchHyp) (special_tokens non_symbols_encoded : List Nat) :
    Views (List (List Nat)) :=
  let removed := h.sequence.map (fun seq => remove_special_tokens seq special_tokens false)
  { full := h.sequence
    removed := removed
    symbols := removed.map (fun seq => remove_special_tokens seq non_symbols_encoded false) }

/-- Function `evaluate` from `test.py`, with the decoder forward call abstracted
into the `forward` parameter (the networks live outside this
repository).  The multi-step loop is commented out in the source, so
exactly one beam step runs; the final loop computes the three views for
every surviving hypothesis, and the function returns the `sequence`
variable as left over from the last loop iteration, i.e. the last
surviving hypothesis's views.  (Were the surviving list empty, the
source would return the initial raw tensor instead; that unreachable
case is mapped to empty views.) -/
def evaluate (forward : BatchHyp → StepOut) (curr_batch_size startTok : Nat)
    (init_hidden init_attn_low init_attn_high : List Nat)
    (beam_width : Nat) (special_tokens non_symbols_encoded : List Nat) :
    Views (List (List Nat)) :=
  let first := init_hypothesis curr_batch_size startTok init_hidden init_attn_low init_attn_high
  let step_hypotheses := expand_all forward [first]
  let hypotheses := pick_top_k_unique step_hypotheses beam_width
  ((hypotheses.map (fun h => hypothesis_views h special_tokens non_symbols_encoded)).getLast?).getD
    ⟨[], [], []⟩

/-- Modelled from the spec: token-level edit distance (Levenshtein),
standing in for the `editdistance.eval` call of `calc_distances`
(the `editdistance` package is an external library, not part of this
repository). -/
def levenshtein : List Nat → List Nat → Nat
  | [], ys => ys.length
  | x :: xs, [] => (x :: xs).length
  | x :: xs, y :: ys =>
    if x = y then levenshtein xs ys
    else 1 + min (levenshtein xs (y :: ys)) (min (levenshtein (x :: xs) ys) (levenshtein xs ys))
termination_by xs ys => xs.length + ys.length
decreasing_by
  all_goals simp [List.length_cons]
  all_goals omega

/-- Function `calc_distances` from `test.py`: the per-pair edit distances of the
zipped actual/expected sequences. -/
def calc_distances (actual expected : List (List Nat)) : List Nat :=
  List.zipWith levenshtein actual expected

/-- The number of positions where the zipped actual and expected
sequences are equal (`sum([torch.equal(seq, exp) for ...])`). -/
def count_equal (actual expected : List (List Nat)) : Nat :=
  (List.zipWith (fun seq exp => if seq = exp then 1 else 0) actual expected).sum

/-- The statistics `create_statistics` stores on the hypothesis dict. -/
structure Statistics where
  distance : Views Nat
  error : Views ℚ
  correct : Views Nat
  correct_total : Nat
  correct_percent : Views ℚ
deriving Repr, DecidableEq, Inhabited

/-- Function `create_statistics` from `test.py`.  The source mutates the
hypothesis dict; here the stored fields are returned.  The divisions
are performed in the order of the source (`error` for full, removed,
symbols, then the `percent` entries over `correct["total"]`), and a
zero denominator yields the `ZeroDivisionError` the Python division of
two ints raises, propagated to the caller. -/
def create_statistics (sequence expected : Views (List (List Nat)))
    (num_tokens : Views Nat) : Except String Statistics :=
  let distance : Views Nat :=
    { full := (calc_distances sequence.full expected.full).sum
      removed := (calc_distances sequence.removed expected.removed).sum
      symbols := (calc_distances sequence.symbols expected.symbols).sum }
  let correct : Views Nat :=
    { full := count_equal sequence.full expected.full
      removed := count_equal sequence.removed expected.removed
      symbols := count_equal sequence.symbols expected.symbols }
  let correct_total := sequence.full.length
  if num_tokens.full = 0 then Except.error "ZeroDivisionError"
  else if num_tokens.removed = 0 then Except.error "ZeroDivisionError"
  else if num_tokens.symbols = 0 then Except.error "ZeroDivisionError"
  else if correct_total = 0 then Except.error "ZeroDivisionError"
  else
    Except.ok
      { distance := distance
        error :=
          { full := (distance.full : ℚ) / (num_tokens.full : ℚ)
            removed := (distance.removed : ℚ) / (num_tokens.removed : ℚ)
            symbols := (distance.symbols : ℚ) / (num_tokens.symbols : ℚ) }
        correct := correct
        correct_total := correct_total
        correct_percent :=
          { full := (correct.full : ℚ) / (correct_total : ℚ)
            removed := (correct.removed : ℚ) / (correct_total : ℚ)
            symbols := (correct.symbols : ℚ) / (correct_total : ℚ) } }

/-- The right-justifying format `"{value:>{width}}"`: pad on the left
with spaces up to `width`; a longer value is not truncated. -/
def padLeft (s : String) (width : Nat) : String :=
  String.mk (List.replicate (width - s.length) ' ') ++ s

/-- Python's `round` (banker's rounding, half to even) on an exact
rational value. -/
def round_half_even (q : ℚ) : ℤ :=
  let f := ⌊q⌋
  if q - f < 1 / 2 then f
  else if (1 : ℚ) / 2 < q - f then f + 1
  else if f % 2 = 0 then f else f + 1

/-- Renders `n / 100` with exactly two digits after the decimal point,
as Python's `"{value:.2f}"` format does on the values arising here. -/
def format_two_decimals (n : ℤ) : String :=
  let sign := if n < 0 then "-" else ""
  let m := n.natAbs
  let frac := m % 100
  sign ++ toString (m / 100) ++ "." ++ (if frac < 10 then "0" else "") ++ toString frac

/-- Function `to_percent` from `test.py` at the default precision 2: shift by
`100 * 10^2`, round, divide by `10^2` and render with two decimals and
a trailing percent sign.  The source computes with floats; on the
exactly representable values used in this development the rational
computation coincides. -/
def to_percent (decimal : ℚ) : String :=
  format_two_decimals (round_half_even (decimal * 100 * 100)) ++ "%"

/-- The `model_pad` of `create_markdown_tables`: the longest checkpoint
name, raised to at least the length of the header `"Model"`.  (The
Python `max` over the names raises on an empty results dict; that case
is mapped to `0` before the comparison with the header length.) -/
def model_pad (results : List (String × Statistics)) : Nat :=
  max "Model".length ((results.map (fun r => r.1.length)).foldl max 0)

/-- A header line of `create_markdown_tables`: only the model column is
padded (to `model_pad`); the three statistics headers appear at their
own width. -/
def table_header (results : List (String × Statistics))
    (token no_special symbol : String) : String :=
  "| " ++ padLeft "Model" (model_pad results) ++ " | " ++ token ++ " | " ++ no_special
    ++ " | " ++ symbol ++ " |"

/-- The delimiter line: `re.sub("[^|]", "-", header)`. -/
def table_delimiter (header : String) : String :=
  String.mk (header.data.map (fun c => if c = '|' then c else '-'))

/-- A value line of `create_markdown_tables`: the model cell is padded
to `model_pad` and each statistics cell to the length of its column
header. -/
def table_row (mpad : Nat) (name token no_special symbol : String)
    (token_pad no_special_pad symbol_pad : Nat) : String :=
  "| " ++ padLeft name mpad ++ " | " ++ padLeft token token_pad ++ " | "
    ++ padLeft no_special no_special_pad ++ " | " ++ padLeft symbol symbol_pad ++ " |"

/-- The lines of the error-rate table of `create_markdown_tables`
(header, delimiter, one row per checkpoint), before `"\n".join`. -/
def err_lines (results : List (String × Statistics)) : List String :=
  let header := table_header results "Token error rate"
    "Token error rate (no special tokens)" "Symbol error rate"
  header :: table_delimiter header ::
    results.map (fun r =>
      table_row (model_pad results) r.1 (to_percent r.2.error.full)
        (to_percent r.2.error.removed) (to_percent r.2.error.symbols)
        "Token error rate".length "Token error rate (no special tokens)".length
        "Symbol error rate".length)

/-- The lines of the correct-expressions table of
`create_markdown_tables`. -/
def correct_lines (results : List (String × Statistics)) : List String :=
  let header := table_header results "Correct expressions"
    "Correct expressions (no special tokens)" "Correct expressions (Symbols)"
  header :: table_delimiter header ::
    results.map (fun r =>
      table_row (model_pad results) r.1 (to_percent r.2.correct_percent.full)
        (to_percent r.2.correct_percent.removed) (to_percent r.2.correct_percent.symbols)
        "Correct expressions".length "Correct expressions (no special tokens)".length
        "Correct expressions (Symbols)".length)

/-- Function `create_markdown_tables` from `test.py`: the error-rate table and
the correct-expressions table, each a newline join of its lines. -/
def create_markdown_tables (results : List (String × Statistics)) : String × String :=
  (String.intercalate "\n" (err_lines results),
   String.intercalate "\n" (correct_lines results))

/-! ## Supporting lemmas on the sorting, deduplication and re-batching
pipeline -/

theorem mem_insert_by_probability {x h : SingleHyp} {l : List SingleHyp} :
    x ∈ insert_by_probability h l ↔ x = h ∨ x ∈ l := by
  induction l with
  | nil => simp [insert_by_probability]
  | cons h2 t ih =>
    rw [insert_by_probability]
    split
    · simp
    · simp only [List.mem_cons, ih]
      tauto

theorem mem_sort_by_probability {x : SingleHyp} {l : List SingleHyp} :
    x ∈ sort_by_probability l ↔ x ∈ l := by
  induction l with
  | nil => simp [sort_by_probability]
  | cons h t ih =>
    show x ∈ insert_by_probability h (sort_by_probability t) ↔ _
    rw [mem_insert_by_probability, ih]
    simp

theorem pairwise_insert_by_probability {h : SingleHyp} {l : List SingleHyp}
    (hl : l.Pairwise (fun a b => b.probability ≤ a.probability)) :
    (insert_by_probability h l).Pairwise (fun a b => b.probability ≤ a.probability) := by
  induction l with
  | nil => simp [insert_by_probability]
  | cons h2 t ih =>
    rcases List.pairwise_cons.mp hl with ⟨hh2, ht⟩
    rw [insert_by_probability]
    split
    case isTrue hc =>
      refine List.Pairwise.cons ?_ hl
      intro y hy
      rcases List.mem_cons.mp hy with rfl | hyt
      · exact hc
      · exact le_trans (hh2 y hyt) hc
    case isFalse hc =>
      refine List.Pairwise.cons ?_ (ih ht)
      intro y hy
      rcases mem_insert_by_probability.mp hy with rfl | hyt
      · exact le_of_not_le hc
      · exact hh2 y hyt

theorem pairwise_sort_by_probability (l : List SingleHyp) :
    (sort_by_probability l).Pairwise (fun a b => b.probability ≤ a.probability) := by
  induction l with
  | nil => exact List.Pairwise.nil
  | cons h t ih => exact pairwise_insert_by_probability ih

theorem foldl_keep_unique_full {count : Nat} :
    ∀ (t kept : List SingleHyp), count ≤ kept.length →
      t.foldl (keep_unique count) kept = kept
  | [], _, _ => rfl
  | h :: t, kept, hfull => by
    rw [List.foldl_cons, show keep_unique count kept h = kept by simp [keep_unique, hfull]]
    exact foldl_keep_unique_full t kept hfull

theorem mem_foldl_keep_unique {count : Nat} :
    ∀ (t kept : List SingleHyp),
      t.Pairwise (fun a b => b.probability ≤ a.probability) →
      ∀ x ∈ t.foldl (keep_unique count) kept,
        x ∈ kept ∨
          (x ∈ t ∧ (∀ y ∈ t, y.sequence = x.sequence → y.probability ≤ x.probability) ∧
            ∀ z ∈ kept, z.sequence ≠ x.sequence) := by
  intro t
  induction t with
  | nil => exact fun kept _ x hx => Or.inl hx
  | cons h t ih =>
    intro kept hpw x hx
    rw [List.foldl_cons] at hx
    rcases List.pairwise_cons.mp hpw with ⟨hht, hpt⟩
    by_cases hfull : count ≤ kept.length
    · rw [show keep_unique count kept h = kept by simp [keep_unique, hfull],
        foldl_keep_unique_full t kept hfull] at hx
      exact Or.inl hx
    · by_cases hdup : kept.any (fun hUniq => decide (h.sequence = hUniq.sequence)) = true
      · rw [show keep_unique count kept h = kept by simp [keep_unique, hfull, hdup]] at hx
        rcases ih kept hpt x hx with hk | ⟨hxt, hP, hQ⟩
        · exact Or.inl hk
        · refine Or.inr ⟨List.mem_cons_of_mem h hxt, ?_, hQ⟩
          intro y hy hyseq
          rcases List.mem_cons.mp hy with rfl | hyt
          · obtain ⟨z, hz, hzseq⟩ := List.any_eq_true.mp hdup
            exact absurd (hyseq ▸ (of_decide_eq_true hzseq).symm : z.sequence = x.sequence)
              (hQ z hz)
          · exact hP y hyt hyseq
      · rw [show keep_unique count kept h = kept ++ [h] by
          simp [keep_unique, hfull, hdup]] at hx
        rcases ih (kept ++ [h]) hpt x hx with hk | ⟨hxt, hP, hQ⟩
        · rcases List.mem_append.mp hk with hk2 | hk2
          · exact Or.inl hk2
          · rw [List.mem_singleton] at hk2
            subst hk2
            refine Or.inr ⟨List.mem_cons_self _ _, ?_, ?_⟩
            · intro y hy hyseq
              rcases List.mem_cons.mp hy with rfl | hyt
              · exact le_refl _
              · exact hht y hyt
            · intro z hz heq
              exact hdup (List.any_eq_true.mpr ⟨z, hz, decide_eq_true heq.symm⟩)
        · refine Or.inr ⟨List.mem_cons_of_mem h hxt, ?_, ?_⟩
          · intro y hy hyseq
            rcases List.mem_cons.mp hy with rfl | hyt
            · exact absurd hyseq
                (hQ y (List.mem_append_right kept (List.mem_singleton.mpr rfl)))
            · exact hP y hyt hyseq
          · exact fun z hz => hQ z (List.mem_append_left _ hz)

theorem take_top_unique_max_probability {count : Nat} {l : List SingleHyp} {x : SingleHyp}
    (hx : x ∈ take_top_unique count (sort_by_probability l)) :
    x ∈ l ∧ ∀ y ∈ l, y.sequence = x.sequence → y.probability ≤ x.probability := by
  rcases mem_foldl_keep_unique (sort_by_probability l) []
      (pairwise_sort_by_probability l) x hx with hk | ⟨hmem, hP, _⟩
  · exact absurd hk (List.not_mem_nil x)
  · exact ⟨mem_sort_by_probability.mp hmem,
      fun y hy hseq => hP y (mem_sort_by_probability.mpr hy) hseq⟩

theorem pairwise_ne_foldl_keep_unique {count : Nat} :
    ∀ (t kept : List SingleHyp),
      kept.Pairwise (fun a b => a.sequence ≠ b.sequence) →
      (t.foldl (keep_unique count) kept).Pairwise (fun a b => a.sequence ≠ b.sequence) := by
  intro t
  induction t with
  | nil => exact fun kept hk => hk
  | cons h t ih =>
    intro kept hk
    rw [List.foldl_cons]
    apply ih
    rw [keep_unique]
    split
    · exact hk
    · split
      case isTrue => exact hk
      case isFalse hdup =>
        rw [List.pairwise_append]
        refine ⟨hk, List.pairwise_singleton _ _, ?_⟩
        intro a ha b hb
        rw [List.mem_singleton] at hb
        subst hb
        intro heq
        exact hdup (List.any_eq_true.mpr ⟨a, ha, decide_eq_true heq.symm⟩)

theorem pairwise_ne_take_top_unique (count : Nat) (hs : List SingleHyp) :
    (take_top_unique count hs).Pairwise (fun a b => a.sequence ≠ b.sequence) :=
  pairwise_ne_foldl_keep_unique hs [] List.Pairwise.nil

theorem foldl_min_le_init : ∀ (ns : List Nat) (n : Nat), ns.foldl min n ≤ n
  | [], n => le_refl n
  | k :: ks, n => le_trans (foldl_min_le_init ks (min n k)) (min_le_left n k)

theorem foldl_min_le_mem : ∀ (ns : List Nat) (n m : Nat), m ∈ ns → ns.foldl min n ≤ m
  | [], _, m, hm => absurd hm (List.not_mem_nil m)
  | k :: ks, n, m, hm => by
    rcases List.mem_cons.mp hm with rfl | hm2
    · exact le_trans (foldl_min_le_init ks (min n m)) (min_le_right n m)
    · exact foldl_min_le_mem ks (min n k) m hm2

theorem foldl_min_mem : ∀ (ns : List Nat) (n : Nat), ns.foldl min n = n ∨ ns.foldl min n ∈ ns
  | [], _ => Or.inl rfl
  | k :: ks, n => by
    rw [List.foldl_cons]
    rcases foldl_min_mem ks (min n k) with h | h
    · rw [h]
      rcases le_total n k with hnk | hkn
      · exact Or.inl (min_eq_left hnk)
      · exact Or.inr (by rw [min_eq_right hkn]; exact List.mem_cons_self _ _)
    · exact Or.inr (List.mem_cons_of_mem k h)

theorem min_len_le {shs : List (List SingleHyp)} {hs : List SingleHyp} (h : hs ∈ shs) :
    min_len shs ≤ hs.length := by
  cases shs with
  | nil => exact absurd h (List.not_mem_nil hs)
  | cons a rest =>
    rw [min_len]
    rcases List.mem_cons.mp h with rfl | h2
    · exact foldl_min_le_init _ _
    · exact foldl_min_le_mem _ _ _ (List.mem_map_of_mem List.length h2)

theorem min_len_attained {shs : List (List SingleHyp)} (hne : shs ≠ []) :
    ∃ hs ∈ shs, min_len shs = hs.length := by
  cases shs with
  | nil => exact absurd rfl hne
  | cons a rest =>
    rw [min_len]
    rcases foldl_min_mem (rest.map List.length) a.length with h | h
    · exact ⟨a, List.mem_cons_self _ _, h⟩
    · obtain ⟨hs, hmem, hlen⟩ := List.mem_map.mp h
      exact ⟨hs, List.mem_cons_of_mem a hmem, hlen.symm⟩

theorem length_batch_single_hypotheses (shs : List (List SingleHyp)) :
    (batch_single_hypotheses shs).length = min_len shs := by
  simp [batch_single_hypotheses]

theorem batch_single_hypotheses_getD (shs : List (List SingleHyp)) (j : Nat)
    (hj : j < min_len shs) :
    (batch_single_hypotheses shs).getD j default =
      { sequence := shs.map (fun hs => (hs.getD j default).sequence)
        hidden := shs.map (fun hs => (hs.getD j default).hidden)
        attnLow := shs.map (fun hs => (hs.getD j default).attnLow)
        attnHigh := shs.map (fun hs => (hs.getD j default).attnHigh)
        probability := shs.map (fun hs => (hs.getD j default).probability) } := by
  have hj2 : j < (batch_single_hypotheses shs).length := by
    rw [length_batch_single_hypotheses]; exact hj
  rw [List.getD_eq_getElem _ _ hj2]
  unfold batch_single_hypotheses
  rw [List.getElem_map, List.getElem_range]

theorem batch_single_hypotheses_entry (shs : List (List SingleHyp)) (i j : Nat)
    (hi : i < shs.length) (hj : j < min_len shs) :
    ((batch_single_hypotheses shs).getD j default).sequence.getD i [] =
      ((shs.getD i []).getD j default).sequence ∧
    ((batch_single_hypotheses shs).getD j default).probability.getD i 0 =
      ((shs.getD i []).getD j default).probability := by
  rw [batch_single_hypotheses_getD shs j hj]
  dsimp only
  constructor
  · have hi2 : i < (shs.map (fun hs => (hs.getD j default).sequence)).length := by simpa
    rw [List.getD_eq_getElem _ _ hi2, List.getElem_map, List.getD_eq_getElem _ _ hi]
  · have hi2 : i < (shs.map (fun hs => (hs.getD j default).probability)).length := by simpa
    rw [List.getD_eq_getElem _ _ hi2, List.getElem_map, List.getD_eq_getElem _ _ hi]

theorem unique_hypotheses_getD (hypotheses : List BatchHyp) (count i : Nat)
    (hi : i < (unbatch_hypotheses hypotheses).length) :
    (unique_hypotheses hypotheses count).getD i [] =
      take_top_unique count (sort_by_probability ((unbatch_hypotheses hypotheses).getD i [])) := by
  have hish : i < (unique_hypotheses hypotheses count).length := by
    rw [unique_hypotheses, List.length_map]; exact hi
  rw [List.getD_eq_getElem _ _ hish]
  unfold unique_hypotheses
  rw [List.getElem_map, List.getD_eq_getElem _ _ hi]

/-- Every batched survivor of `pick_top_k_unique` corresponds, at input
position `i`, to an element of that input's unique-survivor list. -/
theorem pick_top_k_unique_entry (hypotheses : List BatchHyp) (count i : Nat)
    (hi : i < (unbatch_hypotheses hypotheses).length)
    (bh : BatchHyp) (hbh : bh ∈ pick_top_k_unique hypotheses count) :
    ∃ x ∈ take_top_unique count
        (sort_by_probability ((unbatch_hypotheses hypotheses).getD i [])),
      bh.sequence.getD i [] = x.sequence ∧ bh.probability.getD i 0 = x.probability := by
  unfold pick_top_k_unique at hbh
  obtain ⟨j, hj, hbhj⟩ := List.mem_iff_getElem.mp hbh
  rw [length_batch_single_hypotheses] at hj
  have hish : i < (unique_hypotheses hypotheses count).length := by
    rw [unique_hypotheses, List.length_map]; exact hi
  have hbd : (batch_single_hypotheses (unique_hypotheses hypotheses count)).getD j default
      = bh := by
    rw [List.getD_eq_getElem _ _ (by rw [length_batch_single_hypotheses]; exact hj), hbhj]
  obtain ⟨eseq, eprob⟩ :=
    batch_single_hypotheses_entry (unique_hypotheses hypotheses count) i j hish hj
  rw [hbd] at eseq eprob
  have hmem : (unique_hypotheses hypotheses count).getD i []
      ∈ unique_hypotheses hypotheses count := by
    rw [List.getD_eq_getElem _ _ hish]; exact List.getElem_mem hish
  have hjlen : j < ((unique_hypotheses hypotheses count).getD i []).length :=
    lt_of_lt_of_le hj (min_len_le hmem)
  rw [unique_hypotheses_getD hypotheses count i hi] at eseq eprob hjlen
  refine ⟨(take_top_unique count
      (sort_by_probability ((unbatch_hypotheses hypotheses).getD i []))).getD j default,
    ?_, eseq, eprob⟩
  rw [List.getD_eq_getElem _ _ hjlen]
  exact List.getElem_mem hjlen

/-! ## Theorems -/

/-- C10: `unbatch_hypotheses` applied to an empty list of batched
hypotheses returns an empty list, rather than failing when indexing the
first element. -/
theorem unbatch_hypotheses_nil : unbatch_hypotheses [] = [] := rfl

/-- C2: the claim that `remove_special_tokens` with `strip_only = true`
returns a special-token-free sequence unchanged fails on the code: for
the sequence `[5, 6]` with special set `[0, 1]` (no special token
occurs in the sequence) the Python slice `tokens[0:-0]` is `tokens[0:0]`
and the function returns the empty sequence, contradicting the
function's own doc comment ("Equivalent to String.strip()"). -/
theorem remove_special_tokens_strip_clean_empties :
    remove_special_tokens [5, 6] [0, 1] true = [] ∧
    (∀ tok ∈ ([5, 6] : List Nat), tok ∉ ([0, 1] : List Nat)) ∧
    remove_special_tokens [5, 6] [0, 1] true ≠ [5, 6] := by decide

/-- C7: if the expected token count of any of the three views is zero,
`create_statistics` fails with the `ZeroDivisionError` of the Python
integer division, propagated to the caller; it does not return `0` or
`NaN` silently. -/
theorem create_statistics_zero_denominator
    (sequence expected : Views (List (List Nat))) (num_tokens : Views Nat)
    (h : num_tokens.full = 0 ∨ num_tokens.removed = 0 ∨ num_tokens.symbols = 0) :
    create_statistics sequence expected num_tokens = Except.error "ZeroDivisionError" := by
  unfold create_statistics
  rcases h with h | h | h <;> simp [h]

/-- Witness for C7 at a concrete input: a batch with a zero `symbols`
token count makes `create_statistics` fail. -/
theorem create_statistics_zero_denominator_witness :
    create_statistics ⟨[[1]], [[1]], [[]]⟩ ⟨[[1]], [[1]], [[]]⟩ ⟨1, 1, 0⟩ =
      Except.error "ZeroDivisionError" :=
  create_statistics_zero_denominator _ _ _ (Or.inr (Or.inr rfl))

/-- C6: every child hypothesis produced by one beam-step expansion has,
for each input of the batch, a probability bounded by its parent's: the
child's probability is the parent's times a softmax-derived conditional
probability lying in `[0, 1]`. -/
theorem expand_hypothesis_probability_le
    (hypothesis : BatchHyp) (out : StepOut) (child : BatchHyp)
    (hchild : child ∈ expand_hypothesis hypothesis out)
    (hsoftmax : ∀ col ∈ out.topk, ∀ q ∈ col.1, 0 ≤ q ∧ q ≤ 1)
    (hpar : ∀ p ∈ hypothesis.probability, 0 ≤ p)
    (i : Nat) (hi : i < child.probability.length) :
    child.probability.getD i 0 ≤ hypothesis.probability.getD i 0 := by
  obtain ⟨col, hcol, rfl⟩ := List.mem_map.mp hchild
  dsimp only at hi ⊢
  have hlen := hi
  rw [List.length_zipWith, lt_inf_iff] at hlen
  rw [List.getD_eq_getElem _ _ hi, List.getElem_zipWith,
    List.getD_eq_getElem _ _ hlen.1]
  exact mul_le_of_le_one_right
    (hpar _ (List.getElem_mem hlen.1))
    ((hsoftmax col hcol _ (List.getElem_mem hlen.2)).2)

/-- Witness for C6 at a concrete input: the single child of a one-column
expansion has probability `1 * (6/10) ≤ 1`. -/
theorem expand_hypothesis_probability_le_witness :
    ((expand_hypothesis
        { sequence := [[0]], hidden := [0], attnLow := [0], attnHigh := [0],
          probability := [(1 : ℚ)] }
        { topk := [([(6 : ℚ) / 10], [3])], next_hidden := [7], attnLow := [1],
          attnHigh := [2] }).getD 0 default).probability.getD 0 0 ≤
      ([(1 : ℚ)]).getD 0 0 :=
  expand_hypothesis_probability_le
    { sequence := [[0]], hidden := [0], attnLow := [0], attnHigh := [0],
      probability := [(1 : ℚ)] }
    { topk := [([(6 : ℚ) / 10], [3])], next_hidden := [7], attnLow := [1], attnHigh := [2] }
    _ (by decide) (by decide) (by decide) 0 (by decide)

/-- C8: every child hypothesis produced in one beam-step round extends
its parent: for each input of the batch, the child's full sequence is
one token longer than the parent's. -/
theorem expand_hypothesis_sequence_length
    (hypothesis : BatchHyp) (out : StepOut) (child : BatchHyp)
    (hchild : child ∈ expand_hypothesis hypothesis out)
    (i : Nat) (hi : i < child.sequence.length) :
    (child.sequence.getD i []).length = (hypothesis.sequence.getD i []).length + 1 := by
  obtain ⟨col, hcol, rfl⟩ := List.mem_map.mp hchild
  dsimp only at hi ⊢
  have hlen := hi
  rw [List.length_zipWith, lt_inf_iff] at hlen
  rw [List.getD_eq_getElem _ _ hi, List.getElem_zipWith,
    List.getD_eq_getElem _ _ hlen.1, List.length_append]
  rfl

/-- Witness for C8 at a concrete input: expanding a length-1 sequence
produces a length-2 sequence. -/
theorem expand_hypothesis_sequence_length_witness :
    (((expand_hypothesis
        { sequence := [[0]], hidden := [0], attnLow := [0], attnHigh := [0],
          probability := [(1 : ℚ)] }
        { topk := [([(6 : ℚ) / 10], [3])], next_hidden := [7], attnLow := [1],
          attnHigh := [2] }).getD 0 default).sequence.getD 0 []).length =
      (([[0]] : List (List Nat)).getD 0 []).length + 1 :=
  expand_hypothesis_sequence_length
    { sequence := [[0]], hidden := [0], attnLow := [0], attnHigh := [0],
      probability := [(1 : ℚ)] }
    { topk := [([(6 : ℚ) / 10], [3])], next_hidden := [7], attnLow := [1], attnHigh := [2] }
    _ (by decide) 0 (by decide)

/-- C3: if two candidate hypotheses for the same input have an
identical full token sequence but the second has strictly lower
probability, then `pick_top_k_unique` never retains the lower one:
every retained batched hypothesis whose entry at that input carries
that sequence has probability strictly above the lower candidate's. -/
theorem pick_top_k_unique_keeps_higher (hypotheses : List BatchHyp) (count i : Nat)
    (h1 h2 : SingleHyp)
    (m1 : h1 ∈ (unbatch_hypotheses hypotheses).getD i [])
    (_m2 : h2 ∈ (unbatch_hypotheses hypotheses).getD i [])
    (hseq : h1.sequence = h2.sequence)
    (hlt : h2.probability < h1.probability) :
    ∀ bh ∈ pick_top_k_unique hypotheses count,
      bh.sequence.getD i [] = h2.sequence → h2.probability < bh.probability.getD i 0 := by
  intro bh hbh heq
  have hi : i < (unbatch_hypotheses hypotheses).length := by
    by_contra hnot
    rw [List.getD_eq_default _ _ (le_of_not_lt hnot)] at m1
    exact absurd m1 (List.not_mem_nil h1)
  obtain ⟨x, hxmem, exseq, exprob⟩ := pick_top_k_unique_entry hypotheses count i hi bh hbh
  obtain ⟨_, hmax⟩ := take_top_unique_max_probability hxmem
  have hx2 : x.sequence = h2.sequence := by rw [← exseq, heq]
  have h1x : h1.probability ≤ x.probability := hmax h1 m1 (hseq.trans hx2.symm)
  rw [exprob]
  exact lt_of_lt_of_le hlt h1x

/-- Witness for C3 at a concrete input: of two candidates with sequence
`[0, 3]` and probabilities `6` and `3`, the retained hypothesis has
probability above `3`. -/
theorem pick_top_k_unique_keeps_higher_witness :
    (3 : ℚ) <
      ((pick_top_k_unique
          [{ sequence := [[0, 3]], hidden := [8], attnLow := [3], attnHigh := [4],
             probability := [(3 : ℚ)] },
           { sequence := [[0, 3]], hidden := [7], attnLow := [1], attnHigh := [2],
             probability := [(6 : ℚ)] },
           { sequence := [[0, 2]], hidden := [9], attnLow := [5], attnHigh := [6],
             probability := [(5 : ℚ)] }] 10).getD 0 default).probability.getD 0 0 :=
  pick_top_k_unique_keeps_higher
    [{ sequence := [[0, 3]], hidden := [8], attnLow := [3], attnHigh := [4],
       probability := [(3 : ℚ)] },
     { sequence := [[0, 3]], hidden := [7], attnLow := [1], attnHigh := [2],
       probability := [(6 : ℚ)] },
     { sequence := [[0, 2]], hidden := [9], attnLow := [5], attnHigh := [6],
       probability := [(5 : ℚ)] }] 10 0
    { sequence := [0, 3], hidden := 7, attnLow := 1, attnHigh := 2, probability := (6 : ℚ) }
    { sequence := [0, 3], hidden := 8, attnLow := 3, attnHigh := 4, probability := (3 : ℚ) }
    (by decide) (by decide) (by decide) (by decide) _ (by decide) (by decide)

/-- C4: after deduplication and re-batching, no two retained batched
hypotheses share an identical full token sequence at any input
position: the uniqueness invariant of the beam. -/
theorem pick_top_k_unique_no_duplicate (hypotheses : List BatchHyp) (count i j1 j2 : Nat)
    (hj12 : j1 < j2) (hj2 : j2 < (pick_top_k_unique hypotheses count).length)
    (hi : i < (unbatch_hypotheses hypotheses).length) :
    ((pick_top_k_unique hypotheses count).getD j1 default).sequence.getD i [] ≠
      ((pick_top_k_unique hypotheses count).getD j2 default).sequence.getD i [] := by
  have hlen : (pick_top_k_unique hypotheses count).length
      = min_len (unique_hypotheses hypotheses count) :=
    length_batch_single_hypotheses _
  rw [hlen] at hj2
  have hj1 : j1 < min_len (unique_hypotheses hypotheses count) := lt_trans hj12 hj2
  have hish : i < (unique_hypotheses hypotheses count).length := by
    rw [unique_hypotheses, List.length_map]; exact hi
  obtain ⟨e1, _⟩ :=
    batch_single_hypotheses_entry (unique_hypotheses hypotheses count) i j1 hish hj1
  obtain ⟨e2, _⟩ :=
    batch_single_hypotheses_entry (unique_hypotheses hypotheses count) i j2 hish hj2
  show ((batch_single_hypotheses (unique_hypotheses hypotheses count)).getD j1
      default).sequence.getD i [] ≠
    ((batch_single_hypotheses (unique_hypotheses hypotheses count)).getD j2
      default).sequence.getD i []
  rw [e1, e2]
  have hmem : (unique_hypotheses hypotheses count).getD i []
      ∈ unique_hypotheses hypotheses count := by
    rw [List.getD_eq_getElem _ _ hish]; exact List.getElem_mem hish
  have hl2 : j2 < ((unique_hypotheses hypotheses count).getD i []).length :=
    lt_of_lt_of_le hj2 (min_len_le hmem)
  have hl1 : j1 < ((unique_hypotheses hypotheses count).getD i []).length :=
    lt_trans hj12 hl2
  have hpw : ((unique_hypotheses hypotheses count).getD i []).Pairwise
      (fun a b => a.sequence ≠ b.sequence) := by
    rw [unique_hypotheses_getD hypotheses count i hi]
    exact pairwise_ne_take_top_unique _ _
  rw [List.getD_eq_getElem _ _ hl1, List.getD_eq_getElem _ _ hl2]
  simpa using List.pairwise_iff_get.mp hpw ⟨j1, hl1⟩ ⟨j2, hl2⟩ hj12

/-- Witness for C4 at a concrete input: the two retained hypotheses
carry the distinct sequences `[0, 3]` and `[0, 2]`. -/
theorem pick_top_k_unique_no_duplicate_witness :
    ((pick_top_k_unique
        [{ sequence := [[0, 3]], hidden := [7], attnLow := [1], attnHigh := [2],
           probability := [(6 : ℚ)] },
         { sequence := [[0, 2]], hidden := [9], attnLow := [5], attnHigh := [6],
           probability := [(5 : ℚ)] }] 10).getD 0 default).sequence.getD 0 [] ≠
      ((pick_top_k_unique
        [{ sequence := [[0, 3]], hidden := [7], attnLow := [1], attnHigh := [2],
           probability := [(6 : ℚ)] },
         { sequence := [[0, 2]], hidden := [9], attnLow := [5], attnHigh := [6],
           probability := [(5 : ℚ)] }] 10).getD 1 default).sequence.getD 0 [] :=
  pick_top_k_unique_no_duplicate
    [{ sequence := [[0, 3]], hidden := [7], attnLow := [1], attnHigh := [2],
       probability := [(6 : ℚ)] },
     { sequence := [[0, 2]], hidden := [9], attnLow := [5], attnHigh := [6],
       probability := [(5 : ℚ)] }] 10 0 0 1 (by decide) (by decide) (by decide)

/-- C5: `batch_single_hypotheses` truncates every input's survivor list
to the minimum common count (which is attained by some input and is a
lower bound of all), and the returned batched beam is rectangular: its
length is that minimum and every batched hypothesis carries exactly one
entry per input. -/
theorem batch_single_hypotheses_truncates (shs : List (List SingleHyp)) (hne : shs ≠ []) :
    (batch_single_hypotheses shs).length = min_len shs ∧
    (∀ hs ∈ shs, min_len shs ≤ hs.length) ∧
    (∃ hs ∈ shs, min_len shs = hs.length) ∧
    ∀ bh ∈ batch_single_hypotheses shs,
      bh.sequence.length = shs.length ∧ bh.hidden.length = shs.length ∧
        bh.attnLow.length = shs.length ∧ bh.attnHigh.length = shs.length ∧
        bh.probability.length = shs.length := by
  refine ⟨length_batch_single_hypotheses shs, fun hs h => min_len_le h,
    min_len_attained hne, ?_⟩
  intro bh hbh
  unfold batch_single_hypotheses at hbh
  obtain ⟨j, hjr, rfl⟩ := List.mem_map.mp hbh
  simp

/-- Witness for C5 at a concrete input: re-batching a ragged pair of
survivor lists (lengths 2 and 1) yields exactly one batched hypothesis,
the minimum common count. -/
theorem batch_single_hypotheses_truncates_witness :
    (batch_single_hypotheses
        [[{ sequence := [1], hidden := 0, attnLow := 0, attnHigh := 0,
            probability := (1 : ℚ) },
          { sequence := [2], hidden := 0, attnLow := 0, attnHigh := 0,
            probability := (1 : ℚ) }],
         [{ sequence := [3], hidden := 0, attnLow := 0, attnHigh := 0,
            probability := (1 : ℚ) }]]).length =
      min_len
        [[{ sequence := [1], hidden := 0, attnLow := 0, attnHigh := 0,
            probability := (1 : ℚ) },
          { sequence := [2], hidden := 0, attnLow := 0, attnHigh := 0,
            probability := (1 : ℚ) }],
         [{ sequence := [3], hidden := 0, attnLow := 0, attnHigh := 0,
            probability := (1 : ℚ) }]] ∧
    min_len
        [[{ sequence := [1], hidden := 0, attnLow := 0, attnHigh := 0,
            probability := (1 : ℚ) },
          { sequence := [2], hidden := 0, attnLow := 0, attnHigh := 0,
            probability := (1 : ℚ) }],
         [{ sequence := [3], hidden := 0, attnLow := 0, attnHigh := 0,
            probability := (1 : ℚ) }]] = 1 :=
  ⟨(batch_single_hypotheses_truncates _ (by decide)).1, by decide⟩

/-- C1 counterexample: `evaluate` does not return the top
(highest-probability) hypothesis's sequence.  At this concrete input
(batch size 1, beam width 2, one decoder call offering token 3 with
probability 6/10 and token 2 with probability 3/10) the top surviving
hypothesis's sequence is `[[0, 3]]`, but `evaluate` returns the views
of the `sequence` variable left over from the last loop iteration,
whose full view is `[[0, 2]]`. -/
theorem evaluate_not_top_counterexample :
    (evaluate
        (fun _ =>
          { topk := [([(6 : ℚ) / 10], [3]), ([(3 : ℚ) / 10], [2])],
            next_hidden := [7], attnLow := [1], attnHigh := [2] })
        1 0 [0] [0] [0] 2 [0] [2]).full = [[0, 2]] ∧
    ((pick_top_k_unique
        (expand_all
          (fun _ =>
            { topk := [([(6 : ℚ) / 10], [3]), ([(3 : ℚ) / 10], [2])],
              next_hidden := [7], attnLow := [1], attnHigh := [2] })
          [init_hypothesis 1 0 [0] [0] [0]]) 2).getD 0 default).sequence = [[0, 3]] ∧
    ([[0, 2]] : List (List Nat)) ≠ [[0, 3]] := by decide

/-- C1 (amended): `evaluate` runs exactly one beam step (the multi-step
loop is commented out), applies the special-token filtering to every
surviving hypothesis's sequences to produce the three views, and
returns the views of the LAST surviving hypothesis — the lowest-ranked
one — not the top's.  (On an empty survivor list both sides degenerate
to empty views.) -/
theorem evaluate_returns_last_views (forward : BatchHyp → StepOut)
    (curr_batch_size startTok : Nat)
    (init_hidden init_attn_low init_attn_high : List Nat) (beam_width : Nat)
    (special_tokens non_symbols_encoded : List Nat) :
    evaluate forward curr_batch_size startTok init_hidden init_attn_low init_attn_high
        beam_width special_tokens non_symbols_encoded =
      hypothesis_views
        (((pick_top_k_unique
            (expand_all forward
              [init_hypothesis curr_batch_size startTok init_hidden init_attn_low
                init_attn_high]) beam_width).getLast?).getD default)
        special_tokens non_symbols_encoded := by
  unfold evaluate
  dsimp only
  rw [List.getLast?_map]
  cases (pick_top_k_unique
      (expand_all forward
        [init_hypothesis curr_batch_size startTok init_hidden init_attn_low
          init_attn_high]) beam_width).getLast? with
  | none => rfl
  | some bh => rfl

/-! ## Supporting lemmas for the markdown tables -/

theorem init_le_foldl_max : ∀ (ns : List Nat) (n : Nat), n ≤ ns.foldl max n
  | [], n => le_refl n
  | k :: ks, n => le_trans (le_max_left n k) (init_le_foldl_max ks (max n k))

theorem le_foldl_max : ∀ (ns : List Nat) (n m : Nat), m ∈ ns → m ≤ ns.foldl max n
  | [], _, m, hm => absurd hm (List.not_mem_nil m)
  | k :: ks, n, m, hm => by
    rcases List.mem_cons.mp hm with rfl | hm2
    · exact le_trans (le_max_right n m) (init_le_foldl_max ks (max n m))
    · exact le_foldl_max ks (max n k) m hm2

theorem five_le_model_pad (results : List (String × Statistics)) :
    5 ≤ model_pad results :=
  le_max_left _ _

theorem name_le_model_pad {results : List (String × Statistics)}
    {r : String × Statistics} (h : r ∈ results) : r.1.length ≤ model_pad results :=
  le_trans (le_foldl_max _ 0 _ (List.mem_map_of_mem (fun p => p.1.length) h))
    (le_max_right _ _)

theorem padLeft_length (s : String) (width : Nat) :
    (padLeft s width).length = max width s.length := by
  rw [padLeft, String.length_append,
    show (String.mk (List.replicate (width - s.length) ' ')).length = width - s.length by
      rw [String.length_mk, List.length_replicate]]
  omega

theorem table_delimiter_length (header : String) :
    (table_delimiter header).length = header.length := by
  rw [table_delimiter, String.length_mk, List.length_map]
  rfl

theorem table_header_length (results : List (String × Statistics))
    (token no_special symbol : String) :
    (table_header results token no_special symbol).length =
      2 + model_pad results + 3 + token.length + 3 + no_special.length + 3
        + symbol.length + 2 := by
  rw [table_header]
  simp only [String.length_append, padLeft_length]
  have hm : max (model_pad results) ("Model".length) = model_pad results :=
    Nat.max_eq_left (five_le_model_pad results)
  rw [hm]
  have h1 : ("| " : String).length = 2 := rfl
  have h2 : (" | " : String).length = 3 := rfl
  have h3 : (" |" : String).length = 2 := rfl
  rw [h1, h2, h3]

theorem table_row_length (mpad : Nat) (name token no_special symbol : String)
    (token_pad no_special_pad symbol_pad : Nat) :
    (table_row mpad name token no_special symbol token_pad no_special_pad
        symbol_pad).length =
      2 + max mpad name.length + 3 + max token_pad token.length + 3
        + max no_special_pad no_special.length + 3 + max symbol_pad symbol.length + 2 := by
  rw [table_row]
  simp only [String.length_append, padLeft_length]
  have h1 : ("| " : String).length = 2 := rfl
  have h2 : (" | " : String).length = 3 := rfl
  have h3 : (" |" : String).length = 2 := rfl
  rw [h1, h2, h3]

theorem err_header_widths :
    ("Token error rate" : String).length = 16 ∧
    ("Token error rate (no special tokens)" : String).length = 36 ∧
    ("Symbol error rate" : String).length = 17 := by
  refine ⟨rfl, rfl, rfl⟩

theorem correct_header_widths :
    ("Correct expressions" : String).length = 19 ∧
    ("Correct expressions (no special tokens)" : String).length = 39 ∧
    ("Correct expressions (Symbols)" : String).length = 29 := by
  refine ⟨rfl, rfl, rfl⟩

/-- C9 counterexample: column cells are not padded to the longest of
the column's header and all its values, and the rows do not all align.
With a single checkpoint whose full-view error rate is `10^10`, the
rendered value `"1000000000000.00%"` (17 characters) exceeds the
`"Token error rate"` header (16 characters), so the value row is one
character longer than the header and delimiter rows. -/
theorem create_markdown_tables_misaligned_counterexample :
    (err_lines
        [("m",
          { distance := ⟨0, 0, 0⟩, error := ⟨(10000000000 : ℚ), 0, 0⟩,
            correct := ⟨0, 0, 0⟩, correct_total := 1,
            correct_percent := ⟨0, 0, 0⟩ })]).map String.length = [87, 87, 88] ∧
    (87 : Nat) ≠ 88 := by decide

/-- C9 (amended): the model column's cells are padded to the longest of
the `"Model"` header and all checkpoint names; the three statistics
columns' value cells are padded to their header's length only (an
overlong value is not truncated).  Consequently, whenever every
rendered percentage fits inside its column header, all lines of both
tables have the same length (`model_pad` plus the fixed header
widths). -/
theorem create_markdown_tables_alignment (results : List (String × Statistics))
    (_hne : results ≠ [])
    (hfit : ∀ r ∈ results,
      (to_percent r.2.error.full).length ≤ 16 ∧
      (to_percent r.2.error.removed).length ≤ 36 ∧
      (to_percent r.2.error.symbols).length ≤ 17 ∧
      (to_percent r.2.correct_percent.full).length ≤ 19 ∧
      (to_percent r.2.correct_percent.removed).length ≤ 39 ∧
      (to_percent r.2.correct_percent.symbols).length ≤ 29) :
    (∀ r ∈ results, r.1.length ≤ model_pad results) ∧
    (∀ line ∈ err_lines results, line.length = model_pad results + 82) ∧
    (∀ line ∈ correct_lines results, line.length = model_pad results + 100) := by
  refine ⟨fun r h => name_le_model_pad h, ?_, ?_⟩
  · intro line hline
    rw [err_lines] at hline
    rcases List.mem_cons.mp hline with rfl | hline2
    · rw [table_header_length, err_header_widths.1, err_header_widths.2.1,
        err_header_widths.2.2]
      omega
    · rcases List.mem_cons.mp hline2 with rfl | hline3
      · rw [table_delimiter_length, table_header_length, err_header_widths.1,
          err_header_widths.2.1, err_header_widths.2.2]
        omega
      · obtain ⟨r, hr, rfl⟩ := List.mem_map.mp hline3
        rw [table_row_length,
          Nat.max_eq_left (name_le_model_pad hr),
          Nat.max_eq_left (show ("Token error rate" : String).length
              ≥ (to_percent r.2.error.full).length from (hfit r hr).1),
          Nat.max_eq_left (show ("Token error rate (no special tokens)" : String).length
              ≥ (to_percent r.2.error.removed).length from (hfit r hr).2.1),
          Nat.max_eq_left (show ("Symbol error rate" : String).length
              ≥ (to_percent r.2.error.symbols).length from (hfit r hr).2.2.1),
          err_header_widths.1, err_header_widths.2.1, err_header_widths.2.2]
        omega
  · intro line hline
    rw [correct_lines] at hline
    rcases List.mem_cons.mp hline with rfl | hline2
    · rw [table_header_length, correct_header_widths.1, correct_header_widths.2.1,
        correct_header_widths.2.2]
      omega
    · rcases List.mem_cons.mp hline2 with rfl | hline3
      · rw [table_delimiter_length, table_header_length, correct_header_widths.1,
          correct_header_widths.2.1, correct_header_widths.2.2]
        omega
      · obtain ⟨r, hr, rfl⟩ := List.mem_map.mp hline3
        rw [table_row_length,
          Nat.max_eq_left (name_le_model_pad hr),
          Nat.max_eq_left (show ("Correct expressions" : String).length
              ≥ (to_percent r.2.correct_percent.full).length from (hfit r hr).2.2.2.1),
          Nat.max_eq_left
            (show ("Correct expressions (no special tokens)" : String).length
              ≥ (to_percent r.2.correct_percent.removed).length from
                (hfit r hr).2.2.2.2.1),
          Nat.max_eq_left (show ("Correct expressions (Symbols)" : String).length
              ≥ (to_percent r.2.correct_percent.symbols).length from
                (hfit r hr).2.2.2.2.2),
          correct_header_widths.1, correct_header_widths.2.1, correct_header_widths.2.2]
        omega

/-- Witness for the amended C9 at a concrete input: one checkpoint
named `"model-a"` with all rates zero; every line of both tables has
length `model_pad + 82` resp. `model_pad + 100`. -/
theorem create_markdown_tables_alignment_witness :
    (∀ r ∈ [("model-a",
        ({ distance := ⟨0, 0, 0⟩, error := ⟨0, 0, 0⟩, correct := ⟨0, 0, 0⟩,
           correct_total := 1, correct_percent := ⟨0, 0, 0⟩ } : Statistics))],
      r.1.length ≤ model_pad [("model-a",
        { distance := ⟨0, 0, 0⟩, error := ⟨0, 0, 0⟩, correct := ⟨0, 0, 0⟩,
          correct_total := 1, correct_percent := ⟨0, 0, 0⟩ })]) ∧
    (∀ line ∈ err_lines [("model-a",
        { distance := ⟨0, 0, 0⟩, error := ⟨0, 0, 0⟩, correct := ⟨0, 0, 0⟩,
          correct_total := 1, correct_percent := ⟨0, 0, 0⟩ })],
      line.length = model_pad [("model-a",
        { distance := ⟨0, 0, 0⟩, error := ⟨0, 0, 0⟩, correct := ⟨0, 0, 0⟩,
          correct_total := 1, correct_percent := ⟨0, 0, 0⟩ })] + 82) ∧
    (∀ line ∈ correct_lines [("model-a",
        { distance := ⟨0, 0, 0⟩, error := ⟨0, 0, 0⟩, correct := ⟨0, 0, 0⟩,
          correct_total := 1, correct_percent := ⟨0, 0, 0⟩ })],
      line.length = model_pad [("model-a",
        { distance := ⟨0, 0, 0⟩, error := ⟨0, 0, 0⟩, correct := ⟨0, 0, 0⟩,
          correct_total := 1, correct_percent := ⟨0, 0, 0⟩ })] + 100) :=
  create_markdown_tables_alignment _ (by decide) (by decide)

end LatexOCR
